import Mathlib

/-!
Verification of the sui-id-miner mining engine against its specification.

The development shallowly embeds the Rust sources of the repository:
byte strings become `List Nat` (each entry a byte value), machine integers
become `Nat` with explicit `% 2 ^ 64` (respectively `% 2 ^ 16`) wherever the
Rust code relies on wrapping arithmetic, fallible operations return `Option`,
and a slice-index panic is modelled as `none` of an outer `Option` layer.
External crate functions (`bcs` parsing combined with the Sui reference
transaction digest, `Blake2b256`, and `ObjectID::derive_id`) are not part of
this repository; the definitions below are parameterized over them, so every
theorem holds for the real instantiations.
-/

namespace SuiIdMiner

/-- Value of one hex digit, as accepted by `hex::decode` (digits `0`-`9`,
`a`-`f`, `A`-`F`); `none` for any other character.  Stated on the character
code to keep arithmetic elementary. -/
def hexVal (c : Char) : Option Nat :=
  let n := c.toNat
  if 48 ≤ n ∧ n ≤ 57 then some (n - 48)
  else if 97 ≤ n ∧ n ≤ 102 then some (n - 87)
  else if 65 ≤ n ∧ n ≤ 70 then some (n - 55)
  else none

/-- `hex::decode`: an even-length hex string decodes to its list of bytes;
odd length or a non-hex character is an error. -/
def hexDecode : List Char → Option (List Nat)
  | [] => some []
  | [_] => none
  | c1 :: c2 :: rest =>
    match hexVal c1, hexVal c2, hexDecode rest with
    | some h, some l, some bs => some ((16 * h + l) :: bs)
    | _, _, _ => none

/-- Two-step structural induction on a character list, matching the recursion
pattern of `hexDecode`. -/
def twoStepInduction {motive : List Char → Sort u} (nil : motive [])
    (single : ∀ c, motive [c])
    (cons2 : ∀ c1 c2 rest, motive rest → motive (c1 :: c2 :: rest)) :
    ∀ s, motive s
  | [] => nil
  | [c] => single c
  | c1 :: c2 :: rest => cons2 c1 c2 rest (twoStepInduction nil single cons2 rest)

/-- `TargetChecker` (target.rs lines 1-6): decoded prefix bytes plus the
original hex length. -/
structure TargetChecker where
  prefix_bytes : List Nat
  prefix_len : Nat
deriving Repr, DecidableEq

/-- `TargetChecker::from_hex_prefix` (target.rs lines 11-33): reject more than
64 hex characters, pad an odd-length string with a trailing `0`, hex-decode. -/
def fromHexPrefix (s : List Char) : Option TargetChecker :=
  let prefix_len := s.length
  if 64 < prefix_len then none
  else
    let padded := if prefix_len % 2 == 1 then s ++ ['0'] else s
    match hexDecode padded with
    | some bs => some ⟨bs, prefix_len⟩
    | none => none

/-- `TargetChecker::matches` (target.rs lines 37-54): compare the full bytes,
then, for an odd-length prefix, the high nibble of the next byte. -/
def TargetChecker.matches (t : TargetChecker) (id_bytes : List Nat) : Bool :=
  let full_bytes := t.prefix_len / 2
  if 0 < full_bytes ∧ id_bytes.take full_bytes ≠ t.prefix_bytes.take full_bytes then
    false
  else if t.prefix_len % 2 == 1 then
    t.prefix_bytes.getD full_bytes 0 / 16 == id_bytes.getD full_bytes 0 / 16
  else
    true

/-- `TargetChecker::difficulty` (target.rs lines 57-59). -/
def TargetChecker.difficulty (t : TargetChecker) : Nat :=
  t.prefix_len

/-- Size of the `u64` value space. -/
def u64Size : Nat := 2 ^ 64

/-- `TargetChecker::estimated_attempts` (target.rs lines 62-65):
`16u64.pow(prefix_len)`, with release-mode wrapping on overflow. -/
def TargetChecker.estimated_attempts (t : TargetChecker) : Nat :=
  16 ^ t.prefix_len % u64Size

/-- `u64::to_le_bytes` restricted to its first argument many bytes:
little-endian byte list of a value. -/
def toLeBytes : Nat → Nat → List Nat
  | 0, _ => []
  | k + 1, v => v % 256 :: toLeBytes k (v / 256)

/-- `u64::from_le_bytes`: value of a little-endian byte list. -/
def fromLeBytes : List Nat → Nat
  | [] => 0
  | b :: bs => b + 256 * fromLeBytes bs

/-- `copy_from_slice` of a byte string `w` into the window starting at `off`
(executor.rs lines 86-87). -/
def writeWindow (tpl : List Nat) (off : Nat) (w : List Nat) : List Nat :=
  tpl.take off ++ w ++ tpl.drop (off + w.length)

/-- `MiningResult` (mode.rs lines 8-18). -/
structure MiningResult where
  object_id : List Nat
  object_index : Nat
  tx_digest : List Nat
  tx_bytes : List Nat
  nonce : Nat
  gas_budget_used : Nat
  attempts : Nat
deriving Repr, DecidableEq

/-- The three `MiningMode` implementations (mode.rs lines 44-143):
`PackageMode`, `GasCoinMode { num_outputs }`, `SingleObjectMode { object_index }`. -/
inductive MiningMode where
  | package : MiningMode
  | gasCoin (num_outputs : Nat) : MiningMode
  | singleObject (object_index : Nat) : MiningMode
deriving Repr, DecidableEq

/-- The index loop of `GasCoinMode::check_match` (mode.rs lines 91-96), started
at `idx` with `remaining` indices still to try.  `derive` abstracts
`ObjectID::derive_id` from the external sui-types crate. -/
def gasCoinCheckFrom (derive : List Nat → Nat → List Nat) (d : List Nat)
    (t : TargetChecker) : Nat → Nat → Option (List Nat × Nat)
  | _, 0 => none
  | idx, r + 1 =>
    let object_id := derive d idx
    if t.matches object_id then some (object_id, idx)
    else gasCoinCheckFrom derive d t (idx + 1) r

/-- `check_match` of the three modes (mode.rs lines 48-59, 85-98, 123-134). -/
def check_match (derive : List Nat → Nat → List Nat) (mode : MiningMode)
    (d : List Nat) (t : TargetChecker) : Option (List Nat × Nat) :=
  match mode with
  | .package =>
    let package_id := derive d 0
    if t.matches package_id then some (package_id, 0) else none
  | .gasCoin num_outputs => gasCoinCheckFrom derive d t 0 num_outputs
  | .singleObject object_index =>
    let object_id := derive d object_index
    if t.matches object_id then some (object_id, object_index) else none

/-- `index_range` of the three modes (mode.rs lines 65-67, 104-106, 140-142);
the `u16` addition of `SingleObjectMode` wraps modulo `2 ^ 16` on overflow
(release semantics). -/
def index_range (mode : MiningMode) : Nat × Nat :=
  match mode with
  | .package => (0, 1)
  | .gasCoin num_outputs => (0, num_outputs)
  | .singleObject object_index => (object_index, (object_index + 1) % 2 ^ 16)

/-- One inner iteration of the CPU worker loop (executor.rs lines 82-124) at
nonce `n`: write `base_gas_budget.wrapping_add(n)` little-endian into the
nonce window, parse and hash, check the mode, and build the `MiningResult` on
a match.  `parseDigest` abstracts `bcs::from_bytes::<TransactionData>`
followed by `TransactionData::digest` from the external crates: `none` is a
parse failure, `some` is the reference transaction digest of the bytes. -/
def attempt (parseDigest : List Nat → Option (List Nat))
    (derive : List Nat → Nat → List Nat) (mode : MiningMode)
    (target : TargetChecker) (tx_template : List Nat)
    (nonce_offset base_gas_budget initial_start_nonce n : Nat) :
    Option MiningResult :=
  let varied_gas_budget := (base_gas_budget + n) % u64Size
  let tx_bytes := writeWindow tx_template nonce_offset (toLeBytes 8 varied_gas_budget)
  match parseDigest tx_bytes with
  | none => none
  | some tx_digest =>
    match check_match derive mode tx_digest target with
    | none => none
    | some (object_id, object_index) =>
      some { object_id := object_id, object_index := object_index,
             tx_digest := tx_digest, tx_bytes := tx_bytes, nonce := n,
             gas_budget_used := varied_gas_budget,
             attempts := n - initial_start_nonce }

/-- The search performed by the worker threads of `CpuExecutor::mine`
(executor.rs lines 57-133), abstracted over the scheduling: `nonces` is the
sequence of nonce values attempted (across all workers, in the order the
winning publication is decided); the first successful attempt is published. -/
def cpuSearch (parseDigest : List Nat → Option (List Nat))
    (derive : List Nat → Nat → List Nat) (mode : MiningMode)
    (target : TargetChecker) (tx_template : List Nat)
    (nonce_offset base_gas_budget initial_start_nonce : Nat) :
    List Nat → Option MiningResult
  | [] => none
  | n :: ns =>
    match attempt parseDigest derive mode target tx_template nonce_offset
        base_gas_budget initial_start_nonce n with
    | some r => some r
    | none =>
      cpuSearch parseDigest derive mode target tx_template nonce_offset
        base_gas_budget initial_start_nonce ns

/-- `MinerConfig::base_gas_budget` (config.rs lines 32-36): read the 8 bytes
at the nonce offset as a little-endian `u64`.  The slice expression panics
when `nonce_offset + 8` exceeds the template length; the panic is `none`. -/
def base_gas_budget (tx_template : List Nat) (nonce_offset : Nat) : Option Nat :=
  if nonce_offset + 8 ≤ tx_template.length then
    some (fromLeBytes ((tx_template.drop nonce_offset).take 8))
  else none

/-- `CpuExecutor::mine` (executor.rs lines 40-143): read the base gas budget
once (a panic there, modelled by the outer `none`, aborts the call before any
worker is spawned), run the workers, return the published result.  The outer
`some` is a normal return; the inner option is the mined result. -/
def cpuMine (parseDigest : List Nat → Option (List Nat))
    (derive : List Nat → Nat → List Nat) (mode : MiningMode)
    (target : TargetChecker) (tx_template : List Nat)
    (nonce_offset start_nonce : Nat) (nonces : List Nat) :
    Option (Option MiningResult) :=
  match base_gas_budget tx_template nonce_offset with
  | none => none
  | some base =>
    some (cpuSearch parseDigest derive mode target tx_template nonce_offset
      base start_nonce nonces)

/-- `chunk_size` (executor.rs line 54). -/
def chunk_size : Nat := 10000

/-- The inner `for` loop of a worker (executor.rs lines 77-126) resumed at
nonce `n` with `remaining` iterations left in the current chunk.  `foundAt`
gives the value of the shared `found` flag as observed at each iteration.
Returns the worker's publication (when it wins) together with the number of
inner iterations it performed before leaving the loop. -/
def scanChunk (parseDigest : List Nat → Option (List Nat))
    (derive : List Nat → Nat → List Nat) (mode : MiningMode)
    (target : TargetChecker) (tx_template : List Nat)
    (nonce_offset base_gas_budget initial_start_nonce : Nat)
    (foundAt : Nat → Bool) : Nat → Nat → Option MiningResult × Nat
  | _, 0 => (none, 0)
  | n, r + 1 =>
    if foundAt n then (none, 1)
    else
      match attempt parseDigest derive mode target tx_template nonce_offset
          base_gas_budget initial_start_nonce n with
      | some res => (some res, 1)
      | none =>
        let rest := scanChunk parseDigest derive mode target tx_template
          nonce_offset base_gas_budget initial_start_nonce foundAt (n + 1) r
        (rest.1, rest.2 + 1)

/-- Joining the workers and reading the result slot (executor.rs lines
136-142): the slot holds the publication of the worker whose `found`
compare-exchange succeeded, and `mine` returns its contents. -/
def collectResult : List (Option MiningResult) → Option MiningResult
  | [] => none
  | some r :: _ => some r
  | none :: os => collectResult os

/-- `u64` wrapping subtraction (`wrapping_sub`), for a minuend below `2^64`. -/
def usub (a b : Nat) : Nat :=
  (a + u64Size - b % u64Size) % u64Size

/-- Host-side handling of one candidate read back from a GPU dispatch
(gpu.rs lines 282-401).  `nonce` and `matching_index` are the values the
kernel reported, `gpu_digest` is the digest bytes it reported.  The strict
path parses the reconstructed bytes and re-derives the id via the reference
functions; two fallback paths accept the candidate via the raw digest
`Blake2b256([0, 0, 0] ++ tx_bytes)` instead.  `blake2b` abstracts
`Blake2b256` from the external fastcrypto crate. -/
def gpuVerifyCandidate (parseDigest : List Nat → Option (List Nat))
    (blake2b : List Nat → List Nat) (derive : List Nat → Nat → List Nat)
    (target : TargetChecker) (working_template : List Nat)
    (working_offset base_budget start_nonce : Nat) (gpu_digest : List Nat)
    (nonce matching_index : Nat) : Option MiningResult :=
  let tx_bytes := writeWindow working_template working_offset (toLeBytes 8 nonce)
  match parseDigest tx_bytes with
  | some tx_digest =>
    let object_id := derive tx_digest matching_index
    if target.matches object_id then
      some { object_id := object_id, object_index := matching_index,
             tx_digest := tx_digest, tx_bytes := tx_bytes,
             nonce := usub nonce base_budget, gas_budget_used := nonce,
             attempts := usub nonce base_budget - start_nonce }
    else
      let direct_digest := blake2b ([0, 0, 0] ++ tx_bytes)
      let raw_object_id := derive direct_digest matching_index
      if target.matches raw_object_id then
        some { object_id := raw_object_id, object_index := matching_index,
               tx_digest := direct_digest, tx_bytes := tx_bytes,
               nonce := usub nonce base_budget, gas_budget_used := nonce,
               attempts := usub nonce base_budget - start_nonce }
      else none
  | none =>
    let direct_digest := blake2b ([0, 0, 0] ++ tx_bytes)
    if gpu_digest = direct_digest then
      let object_id := derive direct_digest matching_index
      if target.matches object_id then
        some { object_id := object_id, object_index := matching_index,
               tx_digest := direct_digest, tx_bytes := tx_bytes,
               nonce := usub nonce base_budget, gas_budget_used := nonce,
               attempts := usub nonce base_budget - start_nonce }
      else none
    else none

example : fromHexPrefix ['0', '0'] = some ⟨[0], 2⟩ := by decide
example : fromHexPrefix ['d', 'e', 'a', 'd'] = some ⟨[0xde, 0xad], 4⟩ := by decide
example : fromHexPrefix ['0'] = some ⟨[0], 1⟩ := by decide
example : fromHexPrefix ['x'] = none := by decide
example :
    (fromHexPrefix ['0']).map (fun t => t.matches (15 :: List.replicate 31 0)) =
      some true := by decide
example :
    (fromHexPrefix ['0']).map (fun t => t.matches (16 :: List.replicate 31 0)) =
      some false := by decide
example :
    (fromHexPrefix ['0', '0']).map TargetChecker.estimated_attempts = some 256 := by
  decide
example : toLeBytes 8 258 = [2, 1, 0, 0, 0, 0, 0, 0] := by decide
example : fromLeBytes [2, 1, 0, 0, 0, 0, 0, 0] = 258 := by decide
example : writeWindow [9, 9, 9, 9] 1 [7, 7] = [9, 7, 7, 9] := by decide
example : base_gas_budget [1, 0, 0, 0, 0, 0, 0, 0, 5] 0 = some 1 := by decide
example : base_gas_budget [1, 0, 0, 0, 0, 0, 0, 0] 1 = none := by decide
example : index_range (.singleObject 65535) = (65535, 0) := by decide
example :
    cpuMine (fun _ => some (List.replicate 32 0)) (fun _ _ => List.replicate 32 0)
      .package ⟨[], 0⟩ (List.replicate 8 0) 0 0 [0] =
    some (some { object_id := List.replicate 32 0, object_index := 0,
                 tx_digest := List.replicate 32 0,
                 tx_bytes := List.replicate 8 0, nonce := 0,
                 gas_budget_used := 0, attempts := 0 }) := by decide

/-- All-zero 32-byte string, for concrete instantiations. -/
def zeros32 : List Nat := List.replicate 32 0

/-- Parse-and-digest oracle that always returns the all-zero digest, for
concrete instantiations. -/
def constParse (_bytes : List Nat) : Option (List Nat) := some zeros32

/-- Parse-and-digest oracle that always fails, modelling a template whose
bytes never deserialize, for concrete instantiations. -/
def noneParse (_bytes : List Nat) : Option (List Nat) := none

/-- Id-derivation oracle that always returns the all-zero id, for concrete
instantiations. -/
def constDerive (_d : List Nat) (_i : Nat) : List Nat := zeros32

/-- Hash oracle that always returns the all-zero digest, for concrete
instantiations. -/
def constBlake (_bytes : List Nat) : List Nat := zeros32

/-- The `TargetChecker` of the empty prefix: it matches every id. -/
def emptyTarget : TargetChecker := ⟨[], 0⟩

/-- A decoded hex digit is below 16. -/
theorem hexVal_lt {c : Char} {v : Nat} (h : hexVal c = some v) : v < 16 := by
  simp only [hexVal] at h
  split_ifs at h with h1 h2 h3 <;> cases h <;> omega

/-- A string that hex-decodes successfully consists of hex digits only. -/
theorem hexVal_isSome_of_hexDecode :
    ∀ (l : List Char) (bs : List Nat), hexDecode l = some bs →
      ∀ c ∈ l, (hexVal c).isSome := by
  intro l
  induction l using twoStepInduction with
  | nil =>
    intro bs _ c hc
    simp at hc
  | single c0 =>
    intro bs h
    simp [hexDecode] at h
  | cons2 c1 c2 rest ih =>
    intro bs h c hc
    simp only [hexDecode] at h
    rcases hv1 : hexVal c1 with _ | v1
    · rw [hv1] at h
      simp at h
    rw [hv1] at h
    rcases hv2 : hexVal c2 with _ | v2
    · rw [hv2] at h
      simp at h
    rw [hv2] at h
    rcases hr : hexDecode rest with _ | bs2
    · rw [hr] at h
      simp at h
    simp only [List.mem_cons] at hc
    rcases hc with hc | hc | hc
    · rw [hc, hv1]
      rfl
    · rw [hc, hv2]
      rfl
    · exact ih bs2 hr c hc

/-- Decoding an odd-length hex string padded with a trailing `0`: the byte at
position `length / 2` is sixteen times the value of the string's last digit
(the padding supplies the zero low nibble). -/
theorem hexDecode_padded_last :
    ∀ (s : List Char), s.length % 2 = 1 → ∀ bs, hexDecode (s ++ ['0']) = some bs →
      ∃ v, hexVal (s.getLastD '0') = some v ∧ bs.getD (s.length / 2) 0 = 16 * v := by
  intro s
  induction s using twoStepInduction with
  | nil =>
    intro h
    simp at h
  | single c =>
    intro _ bs h
    simp only [List.cons_append, List.nil_append, hexDecode] at h
    rcases hv : hexVal c with _ | v
    · rw [hv] at h
      simp at h
    · rw [hv, show hexVal '0' = some 0 from by decide] at h
      simp only [hexDecode] at h
      rw [Option.some.injEq] at h
      refine ⟨v, by simpa [List.getLastD] using hv, ?_⟩
      rw [← h]
      simp
  | cons2 c1 c2 rest ih =>
    intro hodd bs h
    have hro : rest.length % 2 = 1 := by
      simp only [List.length_cons] at hodd
      omega
    have hrne : rest ≠ [] := by
      intro he
      rw [he] at hro
      simp at hro
    simp only [List.cons_append, hexDecode, List.append_eq] at h
    rcases hv1 : hexVal c1 with _ | v1
    · rw [hv1] at h
      simp at h
    rw [hv1] at h
    rcases hv2 : hexVal c2 with _ | v2
    · rw [hv2] at h
      simp at h
    rw [hv2] at h
    rcases hr : hexDecode (rest ++ ['0']) with _ | bs2
    · rw [hr] at h
      simp at h
    rw [hr] at h
    rw [Option.some.injEq] at h
    obtain ⟨v, hval, hgd⟩ := ih hro bs2 hr
    refine ⟨v, ?_, ?_⟩
    · have hstep : (c1 :: c2 :: rest).getLastD '0' = rest.getLastD '0' := by
        simp only [List.getLastD_eq_getLast?, List.getLast?_cons_cons]
        cases rest with
        | nil => exact absurd rfl hrne
        | cons y ys => rw [List.getLast?_cons_cons]
      rw [hstep]
      exact hval
    · rw [← h]
      have hL : (c1 :: c2 :: rest).length / 2 = rest.length / 2 + 1 := by
        simp only [List.length_cons]
        omega
      rw [hL]
      simpa using hgd

/-- C3: for a `TargetChecker` built from a hex prefix of length `L` and a
32-byte id, `matches` returns `true` iff the first `L / 2` bytes of the id
equal the decoded prefix bytes and, when `L` is odd, the high nibble of byte
`L / 2` of the id equals the value of the prefix's last hex digit; in
particular the empty prefix matches every id. -/
theorem c3_matches_iff (s : List Char) (t : TargetChecker) (id : List Nat)
    (hparse : fromHexPrefix s = some t) (_hlen : id.length = 32) :
    (t.matches id = true ↔
      (id.take (s.length / 2) = t.prefix_bytes.take (s.length / 2) ∧
       (s.length % 2 = 1 →
         id.getD (s.length / 2) 0 / 16 = (hexVal (s.getLastD '0')).getD 0))) ∧
    (s = [] → t.matches id = true) := by
  simp only [fromHexPrefix] at hparse
  split_ifs at hparse with h64 hq
  · -- odd-length prefix
    have hpar : s.length % 2 = 1 := by simpa using hq
    rcases hdec : hexDecode (s ++ ['0']) with _ | bs
    · rw [hdec] at hparse
      simp at hparse
    rw [hdec] at hparse
    simp only [Option.some.injEq] at hparse
    subst hparse
    obtain ⟨v, hval, hgd⟩ := hexDecode_padded_last s hpar bs hdec
    have hbs : bs.getD (s.length / 2) 0 / 16 = v := by
      rw [hgd]
      omega
    constructor
    · by_cases heq : id.take (s.length / 2) = bs.take (s.length / 2)
      · have hcond : ¬(0 < s.length / 2 ∧
            id.take (s.length / 2) ≠ bs.take (s.length / 2)) := by simp [heq]
        simp only [TargetChecker.matches]
        rw [if_neg hcond, if_pos hq]
        rw [hbs]
        simp only [beq_iff_eq]
        constructor
        · intro hv
          refine ⟨heq, fun _ => ?_⟩
          rw [← hv, hval]
          rfl
        · rintro ⟨-, hnib⟩
          have hn := hnib hpar
          rw [hval] at hn
          simpa using hn.symm
      · have hfb : 0 < s.length / 2 := by
          rcases Nat.eq_zero_or_pos (s.length / 2) with h0 | h0
          · exact absurd (by simp [h0]) heq
          · exact h0
        simp only [TargetChecker.matches]
        rw [if_pos ⟨hfb, heq⟩]
        simp [heq]
    · intro hs
      rw [hs] at hpar
      simp at hpar
  · -- even-length prefix
    have hpar : ¬s.length % 2 = 1 := by simpa using hq
    rcases hdec : hexDecode s with _ | bs
    · rw [hdec] at hparse
      simp at hparse
    rw [hdec] at hparse
    simp only [Option.some.injEq] at hparse
    subst hparse
    have hbeq : (s.length % 2 == 1) = false := by simp [hpar]
    constructor
    · by_cases heq : id.take (s.length / 2) = bs.take (s.length / 2)
      · have hcond : ¬(0 < s.length / 2 ∧
            id.take (s.length / 2) ≠ bs.take (s.length / 2)) := by simp [heq]
        simp only [TargetChecker.matches]
        rw [if_neg hcond]
        rw [show ((TargetChecker.mk bs s.length).prefix_len % 2 == 1) = false from hbeq]
        simp [heq, hpar]
      · have hfb : 0 < s.length / 2 := by
          rcases Nat.eq_zero_or_pos (s.length / 2) with h0 | h0
          · exact absurd (by simp [h0]) heq
          · exact h0
        simp only [TargetChecker.matches]
        rw [if_pos ⟨hfb, heq⟩]
        simp [heq]
    · intro hs
      subst hs
      simp [TargetChecker.matches]

/-- C3 witness: prefix `"abc"` (odd length 3) against an id starting with
bytes `0xab, 0xcf`: the full byte and the high nibble both match. -/
theorem c3_matches_iff_witness :
    ((TargetChecker.mk [171, 192] 3).matches
        (171 :: 207 :: List.replicate 30 0) = true ↔
      ((171 :: 207 :: List.replicate 30 0).take (['a', 'b', 'c'].length / 2) =
        (TargetChecker.mk [171, 192] 3).prefix_bytes.take
          (['a', 'b', 'c'].length / 2) ∧
       (['a', 'b', 'c'].length % 2 = 1 →
         (171 :: 207 :: List.replicate 30 0).getD
            (['a', 'b', 'c'].length / 2) 0 / 16 =
           (hexVal (['a', 'b', 'c'].getLastD '0')).getD 0))) ∧
    (['a', 'b', 'c'] = [] →
      (TargetChecker.mk [171, 192] 3).matches
        (171 :: 207 :: List.replicate 30 0) = true) :=
  c3_matches_iff ['a', 'b', 'c'] (TargetChecker.mk [171, 192] 3)
    (171 :: 207 :: List.replicate 30 0) (by decide) (by decide)

/-- Specification of the `GasCoinMode::check_match` loop started at `idx` with
`remaining` indices left: a `some` answer is the lowest matching index in the
scanned range, and `none` means the whole scanned range fails to match. -/
theorem gasCoinCheckFrom_spec (derive : List Nat → Nat → List Nat)
    (d : List Nat) (t : TargetChecker) :
    ∀ r idx,
      (∀ oid i, gasCoinCheckFrom derive d t idx r = some (oid, i) →
        idx ≤ i ∧ i < idx + r ∧ oid = derive d i ∧ t.matches oid = true ∧
        ∀ j, idx ≤ j → j < i → t.matches (derive d j) = false) ∧
      (gasCoinCheckFrom derive d t idx r = none ↔
        ∀ j, idx ≤ j → j < idx + r → t.matches (derive d j) = false) := by
  intro r
  induction r with
  | zero =>
    intro idx
    refine ⟨fun oid i h => by simp [gasCoinCheckFrom] at h, ?_⟩
    simp only [gasCoinCheckFrom]
    constructor
    · intro _ j hj1 hj2
      omega
    · intro _
      trivial
  | succ r ih =>
    intro idx
    by_cases hm : t.matches (derive d idx) = true
    · constructor
      · intro oid i h
        simp only [gasCoinCheckFrom, hm, if_true] at h
        obtain ⟨h1, h2⟩ := Prod.mk.injEq .. ▸ Option.some.injEq .. ▸ h
        refine ⟨by omega, by omega, by rw [← h1, h2], by rw [← h1]; exact hm, ?_⟩
        intro j hj1 hj2
        omega
      · simp only [gasCoinCheckFrom, hm, if_true]
        constructor
        · intro h
          exact absurd h (by simp)
        · intro h
          have := h idx (le_refl idx) (by omega)
          rw [hm] at this
          cases this
    · have hm' : t.matches (derive d idx) = false := by
        cases hb : t.matches (derive d idx)
        · rfl
        · exact absurd hb hm
      constructor
      · intro oid i h
        simp only [gasCoinCheckFrom, hm', if_neg] at h
        rw [if_neg (by simp [hm'])] at h
        obtain ⟨ih1, ih2⟩ := ih (idx + 1)
        obtain ⟨g1, g2, g3, g4, g5⟩ := ih1 oid i h
        refine ⟨by omega, by omega, g3, g4, ?_⟩
        intro j hj1 hj2
        rcases Nat.eq_or_lt_of_le hj1 with hj | hj
        · rw [← hj]
          exact hm'
        · exact g5 j (by omega) hj2
      · simp only [gasCoinCheckFrom]
        rw [if_neg (by simp [hm'])]
        obtain ⟨ih1, ih2⟩ := ih (idx + 1)
        rw [ih2]
        constructor
        · intro h j hj1 hj2
          rcases Nat.eq_or_lt_of_le hj1 with hj | hj
          · rw [← hj]
            exact hm'
          · exact h j (by omega) (by omega)
        · intro h j hj1 hj2
          exact h j (by omega) (by omega)

/-- C4: under `GasCoinMode` with `k` outputs, `check_match` returns the pair
for the lowest matching index in `0, 1, ..., k - 1` (its object id derived at
that index and matching the target), and returns `None` exactly when no index
below `k` matches. -/
theorem c4_gas_coin_lowest_index (derive : List Nat → Nat → List Nat)
    (d : List Nat) (t : TargetChecker) (k : Nat) :
    (∀ oid i, check_match derive (.gasCoin k) d t = some (oid, i) →
      i < k ∧ oid = derive d i ∧ t.matches oid = true ∧
      ∀ j, j < i → t.matches (derive d j) = false) ∧
    (check_match derive (.gasCoin k) d t = none ↔
      ∀ j, j < k → t.matches (derive d j) = false) := by
  obtain ⟨h1, h2⟩ := gasCoinCheckFrom_spec derive d t k 0
  constructor
  · intro oid i h
    obtain ⟨g1, g2, g3, g4, g5⟩ := h1 oid i h
    exact ⟨by omega, g3, g4, fun j hj => g5 j (Nat.zero_le j) hj⟩
  · simp only [check_match]
    rw [h2]
    constructor
    · intro h j hj
      exact h j (Nat.zero_le j) (by omega)
    · intro h j _ hj
      exact h j (by omega)

/-- C4 witness: with ids distinguished by index and target prefix `"01"`,
index 1 is the lowest match among 3 outputs. -/
theorem c4_gas_coin_lowest_index_witness :
    (∀ oid i,
      check_match (fun _ j => j :: List.replicate 31 0) (.gasCoin 3)
        (List.replicate 32 0) ⟨[1], 2⟩ = some (oid, i) →
      i < 3 ∧ oid = (fun (_ : List Nat) (j : Nat) => j :: List.replicate 31 0)
          (List.replicate 32 0) i ∧
      TargetChecker.matches ⟨[1], 2⟩ oid = true ∧
      ∀ j, j < i →
        TargetChecker.matches ⟨[1], 2⟩ (j :: List.replicate 31 0) = false) ∧
    (check_match (fun _ j => j :: List.replicate 31 0) (.gasCoin 3)
        (List.replicate 32 0) ⟨[1], 2⟩ = none ↔
      ∀ j, j < 3 →
        TargetChecker.matches ⟨[1], 2⟩ (j :: List.replicate 31 0) = false) :=
  c4_gas_coin_lowest_index (fun _ j => j :: List.replicate 31 0)
    (List.replicate 32 0) ⟨[1], 2⟩ 3

/-- C7 counterexample: a target with a 16-character prefix has
`estimated_attempts` equal to 0 (the `u64` power wraps), not `u64::MAX`. -/
theorem c7_counterexample :
    (fromHexPrefix (List.replicate 16 'f')).map TargetChecker.estimated_attempts =
      some 0 ∧ (0 : Nat) ≠ 2 ^ 64 - 1 := by
  constructor
  · decide
  · decide

/-- C7 amended: for a `TargetChecker` built from a hex prefix,
`estimated_attempts` returns `16 ^ difficulty` for difficulties below 16; for
difficulties of 16 or more the `u64` exponentiation overflows and wraps to 0
(it never saturates at `u64::MAX`). -/
theorem c7_estimated_attempts (s : List Char) (t : TargetChecker)
    (_h : fromHexPrefix s = some t) :
    (t.difficulty < 16 → t.estimated_attempts = 16 ^ t.difficulty) ∧
    (16 ≤ t.difficulty → t.estimated_attempts = 0) := by
  constructor
  · intro h1
    show 16 ^ t.prefix_len % u64Size = 16 ^ t.prefix_len
    apply Nat.mod_eq_of_lt
    calc 16 ^ t.prefix_len = 2 ^ (4 * t.prefix_len) := by
          rw [pow_mul]
          norm_num
      _ < 2 ^ 64 := Nat.pow_lt_pow_right (by norm_num) (by
          show 4 * t.difficulty < 64
          omega)
  · intro h2
    show 16 ^ t.prefix_len % u64Size = 0
    have hdvd : (2 : Nat) ^ 64 ∣ 16 ^ t.prefix_len := by
      have h16 : (16 : Nat) ^ t.prefix_len = 2 ^ (4 * t.prefix_len) := by
        rw [pow_mul]
        norm_num
      rw [h16]
      exact pow_dvd_pow 2 (by
        show 64 ≤ 4 * t.difficulty
        omega)
    obtain ⟨c, hc⟩ := hdvd
    show 16 ^ t.prefix_len % 2 ^ 64 = 0
    rw [hc]
    exact Nat.mul_mod_right _ _

/-- C7 witness: a one-character prefix gives 16 estimated attempts. -/
theorem c7_estimated_attempts_witness :
    ((TargetChecker.mk [160] 1).difficulty < 16 →
      (TargetChecker.mk [160] 1).estimated_attempts =
        16 ^ (TargetChecker.mk [160] 1).difficulty) ∧
    (16 ≤ (TargetChecker.mk [160] 1).difficulty →
      (TargetChecker.mk [160] 1).estimated_attempts = 0) :=
  c7_estimated_attempts ['a'] (TargetChecker.mk [160] 1) (by decide)

/-- C10: for `SingleObjectMode` with index `i` below `u16::MAX`,
`index_range` returns `(i, i + 1)`; at `i = u16::MAX` the `u16` increment
overflows (wrapping to 0), so the produced pair is `(65535, 0)`, an empty
inclusive-exclusive range that contains no index at all. -/
theorem c10_single_object_index_range (i : Nat) (h : i < 2 ^ 16) :
    (i < 2 ^ 16 - 1 → index_range (.singleObject i) = (i, i + 1)) ∧
    (i = 2 ^ 16 - 1 →
      index_range (.singleObject i) = (i, 0) ∧
      ∀ j : Nat, ¬((index_range (.singleObject i)).1 ≤ j ∧
        j < (index_range (.singleObject i)).2)) := by
  constructor
  · intro h1
    simp only [index_range]
    congr 1
    exact Nat.mod_eq_of_lt (by omega)
  · intro h2
    subst h2
    refine ⟨by decide, ?_⟩
    intro j hj
    simp only [index_range] at hj
    omega

/-- C10 witness: instantiated at `i = 65535`, the overflow case. -/
theorem c10_single_object_index_range_witness :
    (65535 < 2 ^ 16 - 1 → index_range (.singleObject 65535) = (65535, 65535 + 1)) ∧
    (65535 = 2 ^ 16 - 1 →
      index_range (.singleObject 65535) = (65535, 0) ∧
      ∀ j : Nat, ¬((index_range (.singleObject 65535)).1 ≤ j ∧
        j < (index_range (.singleObject 65535)).2)) :=
  c10_single_object_index_range 65535 (by decide)

/-- A successful `check_match` returns an id that matches the target. -/
theorem check_match_matches {derive : List Nat → Nat → List Nat}
    {mode : MiningMode} {d : List Nat} {t : TargetChecker} {oid : List Nat}
    {idx : Nat} (h : check_match derive mode d t = some (oid, idx)) :
    t.matches oid = true := by
  cases mode with
  | package =>
    simp only [check_match] at h
    split_ifs at h with hm
    rw [Option.some.injEq, Prod.mk.injEq] at h
    rw [← h.1]
    exact hm
  | gasCoin k =>
    obtain ⟨h1, _⟩ := gasCoinCheckFrom_spec derive d t k 0
    exact (h1 oid idx h).2.2.2.1
  | singleObject i =>
    simp only [check_match] at h
    split_ifs at h with hm
    rw [Option.some.injEq, Prod.mk.injEq] at h
    rw [← h.1]
    exact hm

/-- Decomposition of a successful inner-loop attempt: every field of the
published result is determined by the nonce and the oracles. -/
theorem attempt_spec {parseDigest : List Nat → Option (List Nat)}
    {derive : List Nat → Nat → List Nat} {mode : MiningMode}
    {target : TargetChecker} {tx_template : List Nat}
    {nonce_offset base initial n : Nat} {r : MiningResult}
    (h : attempt parseDigest derive mode target tx_template nonce_offset
      base initial n = some r) :
    r.nonce = n ∧
    r.gas_budget_used = (base + n) % u64Size ∧
    r.tx_bytes = writeWindow tx_template nonce_offset
      (toLeBytes 8 ((base + n) % u64Size)) ∧
    parseDigest r.tx_bytes = some r.tx_digest ∧
    check_match derive mode r.tx_digest target =
      some (r.object_id, r.object_index) ∧
    r.attempts = n - initial := by
  simp only [attempt] at h
  split at h
  · simp at h
  next d hpd =>
    split at h
    · simp at h
    next p oid idx hcm =>
      rw [Option.some.injEq] at h
      subst h
      exact ⟨rfl, rfl, rfl, hpd, hcm, rfl⟩

/-- A successful `cpuSearch` comes from a successful attempt at some nonce. -/
theorem cpuSearch_eq_some {parseDigest : List Nat → Option (List Nat)}
    {derive : List Nat → Nat → List Nat} {mode : MiningMode}
    {target : TargetChecker} {tx_template : List Nat}
    {nonce_offset base initial : Nat} {r : MiningResult} :
    ∀ nonces : List Nat,
      cpuSearch parseDigest derive mode target tx_template nonce_offset
        base initial nonces = some r →
      ∃ n, attempt parseDigest derive mode target tx_template nonce_offset
        base initial n = some r := by
  intro nonces
  induction nonces with
  | nil =>
    intro h
    simp [cpuSearch] at h
  | cons n ns ih =>
    intro h
    simp only [cpuSearch] at h
    rcases ha : attempt parseDigest derive mode target tx_template nonce_offset
        base initial n with _ | res
    · rw [ha] at h
      exact ih h
    · rw [ha] at h
      rw [Option.some.injEq] at h
      subst h
      exact ⟨n, ha⟩

/-- A normally-returning `cpuMine` has a valid base gas budget read. -/
theorem cpuMine_inv {parseDigest : List Nat → Option (List Nat)}
    {derive : List Nat → Nat → List Nat} {mode : MiningMode}
    {target : TargetChecker} {tx_template : List Nat}
    {nonce_offset start_nonce : Nat} {nonces : List Nat} {r : MiningResult}
    (h : cpuMine parseDigest derive mode target tx_template nonce_offset
      start_nonce nonces = some (some r)) :
    nonce_offset + 8 ≤ tx_template.length ∧
    cpuSearch parseDigest derive mode target tx_template nonce_offset
      (fromLeBytes ((tx_template.drop nonce_offset).take 8)) start_nonce
      nonces = some r := by
  simp only [cpuMine, base_gas_budget] at h
  split_ifs at h with hoff
  rw [Option.some.injEq] at h
  exact ⟨hoff, h⟩

/-- C1: when `CpuExecutor::mine` returns `Some(r)`, the bytes `r.tx_bytes`
parse and hash to exactly `r.tx_digest` under the reference path, the mode's
check on that digest yields `(r.object_id, r.object_index)`, and the object
id matches the target. -/
theorem c1_cpu_mine_sound (parseDigest : List Nat → Option (List Nat))
    (derive : List Nat → Nat → List Nat) (mode : MiningMode)
    (target : TargetChecker) (tx_template : List Nat)
    (nonce_offset start_nonce : Nat) (nonces : List Nat) (r : MiningResult)
    (h : cpuMine parseDigest derive mode target tx_template nonce_offset
      start_nonce nonces = some (some r)) :
    parseDigest r.tx_bytes = some r.tx_digest ∧
    check_match derive mode r.tx_digest target =
      some (r.object_id, r.object_index) ∧
    target.matches r.object_id = true := by
  obtain ⟨hoff, hsearch⟩ := cpuMine_inv h
  obtain ⟨n, ha⟩ := cpuSearch_eq_some _ hsearch
  obtain ⟨_, _, _, hpd, hcm, _⟩ := attempt_spec ha
  exact ⟨hpd, hcm, check_match_matches hcm⟩

/-- C1 witness: a concrete call whose first attempted nonce wins. -/
theorem c1_cpu_mine_sound_witness :
    constParse (MiningResult.mk zeros32 0 zeros32 (List.replicate 8 0) 0 0
        0).tx_bytes =
      some (MiningResult.mk zeros32 0 zeros32 (List.replicate 8 0) 0 0
        0).tx_digest ∧
    check_match constDerive .package
        (MiningResult.mk zeros32 0 zeros32 (List.replicate 8 0) 0 0
          0).tx_digest emptyTarget =
      some ((MiningResult.mk zeros32 0 zeros32 (List.replicate 8 0) 0 0
        0).object_id,
        (MiningResult.mk zeros32 0 zeros32 (List.replicate 8 0) 0 0
          0).object_index) ∧
    emptyTarget.matches (MiningResult.mk zeros32 0 zeros32
      (List.replicate 8 0) 0 0 0).object_id = true :=
  c1_cpu_mine_sound constParse constDerive .package emptyTarget
    (List.replicate 8 0) 0 0 [0]
    (MiningResult.mk zeros32 0 zeros32 (List.replicate 8 0) 0 0 0) (by decide)

/-- `toLeBytes k` produces `k` bytes. -/
theorem toLeBytes_length : ∀ (k v : Nat), (toLeBytes k v).length = k
  | 0, _ => rfl
  | k + 1, v => by simp [toLeBytes, toLeBytes_length k (v / 256)]

/-- Little-endian round trip: decoding the `k`-byte encoding of `v` gives
`v` modulo `256 ^ k`. -/
theorem fromLe_toLe : ∀ (k v : Nat), fromLeBytes (toLeBytes k v) = v % 256 ^ k
  | 0, v => by simp [toLeBytes, fromLeBytes, Nat.mod_one]
  | k + 1, v => by
    simp only [toLeBytes, fromLeBytes, fromLe_toLe k (v / 256)]
    rw [pow_succ']
    exact (Nat.mod_mul).symm

/-- Reading back the window that `writeWindow` wrote returns the written
bytes. -/
theorem writeWindow_window (tpl : List Nat) (off : Nat) (w : List Nat)
    (hoff : off ≤ tpl.length) :
    ((writeWindow tpl off w).drop off).take w.length = w := by
  have hlenA : (tpl.take off).length = off := by
    simp [List.length_take]
    omega
  unfold writeWindow
  rw [List.append_assoc, List.drop_left' hlenA]
  exact List.take_left _ _

/-- `writeWindow` preserves the length when the window fits. -/
theorem writeWindow_length (tpl : List Nat) (off : Nat) (w : List Nat)
    (hoff : off + w.length ≤ tpl.length) :
    (writeWindow tpl off w).length = tpl.length := by
  simp [writeWindow, List.length_append, List.length_take, List.length_drop]
  omega

/-- `writeWindow` changes nothing outside the window. -/
theorem writeWindow_getD_outside (tpl : List Nat) (off : Nat) (w : List Nat)
    (j : Nat) (hoff : off + w.length ≤ tpl.length)
    (hj : j < off ∨ off + w.length ≤ j) :
    (writeWindow tpl off w).getD j 0 = tpl.getD j 0 := by
  have hlenA : (tpl.take off).length = off := by
    simp [List.length_take]
    omega
  unfold writeWindow
  rw [List.append_assoc]
  rcases hj with hj | hj
  · rw [List.getD_eq_getElem?_getD, List.getD_eq_getElem?_getD,
      List.getElem?_append, hlenA, if_pos hj]
    simp [List.getElem?_take, hj]
  · rw [List.getD_eq_getElem?_getD, List.getD_eq_getElem?_getD,
      List.getElem?_append, hlenA, if_neg (by omega)]
    rw [List.getElem?_append, if_neg (by omega)]
    rw [List.getElem?_drop]
    congr 2
    omega

/-- C5: for every result of `CpuExecutor::mine`, the 8 bytes of the nonce
window of `r.tx_bytes`, decoded little-endian, equal the base gas budget
(read from the template before the search) wrapping-added to `r.nonce`, and
this value is `r.gas_budget_used`. -/
theorem c5_nonce_window (parseDigest : List Nat → Option (List Nat))
    (derive : List Nat → Nat → List Nat) (mode : MiningMode)
    (target : TargetChecker) (tx_template : List Nat)
    (nonce_offset start_nonce : Nat) (nonces : List Nat) (r : MiningResult)
    (base : Nat) (hb : base_gas_budget tx_template nonce_offset = some base)
    (h : cpuMine parseDigest derive mode target tx_template nonce_offset
      start_nonce nonces = some (some r)) :
    fromLeBytes ((r.tx_bytes.drop nonce_offset).take 8) =
      (base + r.nonce) % u64Size ∧
    r.gas_budget_used = (base + r.nonce) % u64Size := by
  obtain ⟨hoff, hsearch⟩ := cpuMine_inv h
  have hbase : base = fromLeBytes ((tx_template.drop nonce_offset).take 8) := by
    simp only [base_gas_budget] at hb
    rw [if_pos hoff, Option.some.injEq] at hb
    exact hb.symm
  subst hbase
  obtain ⟨n, ha⟩ := cpuSearch_eq_some _ hsearch
  obtain ⟨hn, hgas, htxb, -, -, -⟩ := attempt_spec ha
  subst hn
  refine ⟨?_, hgas⟩
  rw [htxb]
  have h8 := toLeBytes_length 8
    ((fromLeBytes ((tx_template.drop nonce_offset).take 8) + r.nonce) % u64Size)
  have hw := writeWindow_window tx_template nonce_offset
    (toLeBytes 8 ((fromLeBytes ((tx_template.drop nonce_offset).take 8) +
      r.nonce) % u64Size)) (by omega)
  rw [h8] at hw
  rw [hw, fromLe_toLe]
  rw [show (256 : Nat) ^ 8 = u64Size from by norm_num [u64Size]]
  exact Nat.mod_mod_of_dvd _ (dvd_refl _)

/-- C5 witness: a concrete winning call; the window decodes to the wrapped
sum of base budget and nonce, which is the recorded gas budget. -/
theorem c5_nonce_window_witness :
    fromLeBytes (((MiningResult.mk zeros32 0 zeros32 (List.replicate 8 0) 0 0
        0).tx_bytes.drop 0).take 8) =
      (0 + (MiningResult.mk zeros32 0 zeros32 (List.replicate 8 0) 0 0
        0).nonce) % u64Size ∧
    (MiningResult.mk zeros32 0 zeros32 (List.replicate 8 0) 0 0
      0).gas_budget_used =
      (0 + (MiningResult.mk zeros32 0 zeros32 (List.replicate 8 0) 0 0
        0).nonce) % u64Size :=
  c5_nonce_window constParse constDerive .package emptyTarget
    (List.replicate 8 0) 0 0 [0]
    (MiningResult.mk zeros32 0 zeros32 (List.replicate 8 0) 0 0 0) 0
    (by decide) (by decide)

/-- C9: every result of `CpuExecutor::mine` has `tx_bytes` of the same length
as the template, agreeing with the template at every index outside the 8-byte
nonce window (the window is the only mutated region). -/
theorem c9_frame_effect (parseDigest : List Nat → Option (List Nat))
    (derive : List Nat → Nat → List Nat) (mode : MiningMode)
    (target : TargetChecker) (tx_template : List Nat)
    (nonce_offset start_nonce : Nat) (nonces : List Nat) (r : MiningResult)
    (h : cpuMine parseDigest derive mode target tx_template nonce_offset
      start_nonce nonces = some (some r)) :
    r.tx_bytes.length = tx_template.length ∧
    ∀ j, j < nonce_offset ∨ nonce_offset + 8 ≤ j →
      r.tx_bytes.getD j 0 = tx_template.getD j 0 := by
  obtain ⟨hoff, hsearch⟩ := cpuMine_inv h
  obtain ⟨n, ha⟩ := cpuSearch_eq_some _ hsearch
  obtain ⟨hn, hgas, htxb, -, -, -⟩ := attempt_spec ha
  have h8 := toLeBytes_length 8
    ((fromLeBytes ((tx_template.drop nonce_offset).take 8) + n) % u64Size)
  constructor
  · rw [htxb]
    exact writeWindow_length _ _ _ (by rw [h8]; omega)
  · intro j hj
    rw [htxb]
    exact writeWindow_getD_outside _ _ _ _ (by rw [h8]; omega)
      (by rw [h8]; exact hj)

/-- C9 witness: a concrete winning call on an 9-byte template with window at
offset 1; byte 0 is untouched. -/
theorem c9_frame_effect_witness :
    (MiningResult.mk zeros32 0 zeros32 (7 :: List.replicate 8 0) 0 0
      0).tx_bytes.length = (7 :: List.replicate 8 0).length ∧
    ∀ j, j < 1 ∨ 1 + 8 ≤ j →
      (MiningResult.mk zeros32 0 zeros32 (7 :: List.replicate 8 0) 0 0
        0).tx_bytes.getD j 0 = (7 :: List.replicate 8 0).getD j 0 :=
  c9_frame_effect constParse constDerive .package emptyTarget
    (7 :: List.replicate 8 0) 1 0 [0]
    (MiningResult.mk zeros32 0 zeros32 (7 :: List.replicate 8 0) 0 0 0)
    (by decide)

/-- The number of inner iterations a chunk scan performs never exceeds the
remaining iteration budget. -/
theorem scanChunk_count_le (parseDigest : List Nat → Option (List Nat))
    (derive : List Nat → Nat → List Nat) (mode : MiningMode)
    (target : TargetChecker) (tx_template : List Nat)
    (nonce_offset base initial : Nat) (foundAt : Nat → Bool) :
    ∀ r n, (scanChunk parseDigest derive mode target tx_template nonce_offset
      base initial foundAt n r).2 ≤ r := by
  intro r
  induction r with
  | zero =>
    intro n
    simp [scanChunk]
  | succ r ih =>
    intro n
    simp only [scanChunk]
    split_ifs with hf
    · simp
    · split
      · simp
      · simpa using Nat.succ_le_succ (ih (n + 1))

/-- `collectResult` is empty exactly when no worker published. -/
theorem collectResult_none_iff :
    ∀ outcomes : List (Option MiningResult),
      (collectResult outcomes = none ↔ ∀ o ∈ outcomes, o = none) := by
  intro outcomes
  induction outcomes with
  | nil => simp [collectResult]
  | cons o os ih =>
    cases o with
    | some r => simp [collectResult]
    | none => simp [collectResult, ih]

/-- `collectResult` holds a value exactly when some worker published one. -/
theorem collectResult_isSome_iff :
    ∀ outcomes : List (Option MiningResult),
      ((collectResult outcomes).isSome ↔ ∃ o ∈ outcomes, o.isSome) := by
  intro outcomes
  induction outcomes with
  | nil => simp [collectResult]
  | cons o os ih =>
    cases o with
    | some r => simp [collectResult]
    | none => simp [collectResult, ih]

/-- C6: a worker that has already performed `i` iterations of its current
chunk performs at most `chunk_size` (10,000) further inner iterations before
leaving the loop once the cancel flag stays set (it then exits at the `while`
test); and the joined result slot is `none` exactly when no worker won the
`found` flag, `some` exactly when one did. -/
theorem c6_bounded_cancellation (parseDigest : List Nat → Option (List Nat))
    (derive : List Nat → Nat → List Nat) (mode : MiningMode)
    (target : TargetChecker) (tx_template : List Nat)
    (nonce_offset base initial : Nat) (foundAt : Nat → Bool) (n i : Nat)
    (outcomes : List (Option MiningResult)) (hi : i ≤ chunk_size) :
    (scanChunk parseDigest derive mode target tx_template nonce_offset
      base initial foundAt n (chunk_size - i)).2 ≤ chunk_size ∧
    (collectResult outcomes = none ↔ ∀ o ∈ outcomes, o = none) ∧
    ((collectResult outcomes).isSome ↔ ∃ o ∈ outcomes, o.isSome) :=
  ⟨le_trans (scanChunk_count_le parseDigest derive mode target tx_template
      nonce_offset base initial foundAt (chunk_size - i) n) (by omega),
   collectResult_none_iff outcomes, collectResult_isSome_iff outcomes⟩

/-- C6 witness: a worker at the start of a chunk that observes the found flag
performs one further iteration; an empty worker pool publishes nothing. -/
theorem c6_bounded_cancellation_witness :
    (scanChunk constParse constDerive .package emptyTarget [] 0 0 0
      (fun _ => true) 0 (chunk_size - 0)).2 ≤ chunk_size ∧
    (collectResult [] = none ↔ ∀ o ∈ ([] : List (Option MiningResult)),
      o = none) ∧
    ((collectResult []).isSome ↔ ∃ o ∈ ([] : List (Option MiningResult)),
      o.isSome) :=
  c6_bounded_cancellation constParse constDerive .package emptyTarget [] 0 0 0
    (fun _ => true) 0 0 [] (by decide)

/-- C2 counterexample: a candidate whose reconstructed bytes do not BCS-parse
(so the reference path cannot succeed) is still returned as a win through the
raw-digest fallback of gpu.rs lines 347-400. -/
theorem c2_counterexample :
    gpuVerifyCandidate noneParse constBlake constDerive emptyTarget
      (List.replicate 8 0) 0 0 0 zeros32 0 0 =
      some (MiningResult.mk zeros32 0 zeros32 (List.replicate 8 0) 0 0 0) ∧
    noneParse (List.replicate 8 0) = none := by
  constructor
  · decide
  · decide

/-- C2 amended: a GPU candidate is returned as a win only if host-side
verification succeeds on one of the code's verification paths: either the
reference path (BCS parse and reference digest of the reconstructed bytes),
or the raw-bytes fallback digest `Blake2b256([0,0,0] ++ tx_bytes)`; in every
returned result the object id is derived from the returned digest at the
returned index and matches the target, and when the BCS parse fails the
GPU-reported digest must equal the host raw digest.  A candidate failing
these checks is never returned. -/
theorem c2_gpu_verification (parseDigest : List Nat → Option (List Nat))
    (blake2b : List Nat → List Nat) (derive : List Nat → Nat → List Nat)
    (target : TargetChecker) (working_template : List Nat)
    (working_offset base_budget start_nonce : Nat) (gpu_digest : List Nat)
    (nonce matching_index : Nat) (r : MiningResult)
    (h : gpuVerifyCandidate parseDigest blake2b derive target working_template
      working_offset base_budget start_nonce gpu_digest nonce matching_index =
      some r) :
    r.tx_bytes = writeWindow working_template working_offset
      (toLeBytes 8 nonce) ∧
    r.object_index = matching_index ∧
    r.object_id = derive r.tx_digest matching_index ∧
    target.matches r.object_id = true ∧
    (parseDigest r.tx_bytes = some r.tx_digest ∨
      r.tx_digest = blake2b ([0, 0, 0] ++ r.tx_bytes)) ∧
    (parseDigest r.tx_bytes = none → gpu_digest = r.tx_digest) := by
  simp only [gpuVerifyCandidate] at h
  split at h
  next d hpd =>
    split_ifs at h with hm1 hm2
    · rw [Option.some.injEq] at h
      subst h
      exact ⟨rfl, rfl, rfl, hm1, Or.inl hpd,
        fun hn => absurd hn (by simp [hpd])⟩
    · rw [Option.some.injEq] at h
      subst h
      exact ⟨rfl, rfl, rfl, hm2, Or.inr rfl,
        fun hn => absurd hn (by simp [hpd])⟩
  next hpd =>
    split_ifs at h with he hm
    rw [Option.some.injEq] at h
    subst h
    exact ⟨rfl, rfl, rfl, hm, Or.inr rfl, fun _ => he⟩

/-- C2 witness: a concrete candidate accepted through the reference path. -/
theorem c2_gpu_verification_witness :
    (MiningResult.mk zeros32 0 zeros32 (List.replicate 8 0) 0 0 0).tx_bytes =
      writeWindow (List.replicate 8 0) 0 (toLeBytes 8 0) ∧
    (MiningResult.mk zeros32 0 zeros32 (List.replicate 8 0) 0 0
      0).object_index = 0 ∧
    (MiningResult.mk zeros32 0 zeros32 (List.replicate 8 0) 0 0 0).object_id =
      constDerive (MiningResult.mk zeros32 0 zeros32 (List.replicate 8 0) 0 0
        0).tx_digest 0 ∧
    emptyTarget.matches (MiningResult.mk zeros32 0 zeros32
      (List.replicate 8 0) 0 0 0).object_id = true ∧
    (constParse (MiningResult.mk zeros32 0 zeros32 (List.replicate 8 0) 0 0
        0).tx_bytes =
      some (MiningResult.mk zeros32 0 zeros32 (List.replicate 8 0) 0 0
        0).tx_digest ∨
      (MiningResult.mk zeros32 0 zeros32 (List.replicate 8 0) 0 0
        0).tx_digest =
        constBlake ([0, 0, 0] ++ (MiningResult.mk zeros32 0 zeros32
          (List.replicate 8 0) 0 0 0).tx_bytes)) ∧
    (constParse (MiningResult.mk zeros32 0 zeros32 (List.replicate 8 0) 0 0
        0).tx_bytes = none →
      zeros32 = (MiningResult.mk zeros32 0 zeros32 (List.replicate 8 0) 0 0
        0).tx_digest) :=
  c2_gpu_verification constParse constBlake constDerive emptyTarget
    (List.replicate 8 0) 0 0 0 zeros32 0 0
    (MiningResult.mk zeros32 0 zeros32 (List.replicate 8 0) 0 0 0) (by decide)

/-- Under `GasCoinMode` with zero outputs, every inner attempt fails. -/
theorem attempt_gasCoin_zero (parseDigest : List Nat → Option (List Nat))
    (derive : List Nat → Nat → List Nat) (target : TargetChecker)
    (tx_template : List Nat) (nonce_offset base initial n : Nat) :
    attempt parseDigest derive (.gasCoin 0) target tx_template nonce_offset
      base initial n = none := by
  simp only [attempt]
  split
  · rfl
  · simp [check_match, gasCoinCheckFrom]

/-- Under `GasCoinMode` with zero outputs, the whole search fails. -/
theorem cpuSearch_gasCoin_zero (parseDigest : List Nat → Option (List Nat))
    (derive : List Nat → Nat → List Nat) (target : TargetChecker)
    (tx_template : List Nat) (nonce_offset base initial : Nat) :
    ∀ nonces, cpuSearch parseDigest derive (.gasCoin 0) target tx_template
      nonce_offset base initial nonces = none := by
  intro nonces
  induction nonces with
  | nil => rfl
  | cons n ns ih =>
    simp only [cpuSearch]
    rw [attempt_gasCoin_zero]
    exact ih

/-- C8 counterexample: `mine` does not surface configuration errors
synchronously.  With a nonce offset past the template end it panics inside
`base_gas_budget` (the outer `none`) instead of returning an error, and with
an empty index set (`GasCoinMode` with 0 outputs) it performs the search
anyway, returning `None` normally. -/
theorem c8_counterexample :
    cpuMine constParse constDerive .package emptyTarget [] 0 0 [0] = none ∧
    cpuMine constParse constDerive (.gasCoin 0) emptyTarget
      (List.replicate 8 0) 0 0 [0, 1, 2] = some none := by
  constructor
  · decide
  · decide

/-- C8 amended: `CpuExecutor::mine` performs no configuration validation at
entry.  An invalid nonce offset (window past the template end) causes a
slice-index panic in `base_gas_budget` rather than a synchronous error; an
empty index set is not detected and the search proceeds over its nonces,
able only to return no result; an invalid prefix is rejected earlier, at
`TargetChecker::from_hex_prefix`, which fails on over-long or non-hex
input. -/
theorem c8_no_entry_validation (parseDigest : List Nat → Option (List Nat))
    (derive : List Nat → Nat → List Nat) (mode : MiningMode)
    (target : TargetChecker) (tx_template : List Nat)
    (nonce_offset start_nonce : Nat) (nonces : List Nat) (s : List Char) :
    (tx_template.length < nonce_offset + 8 →
      cpuMine parseDigest derive mode target tx_template nonce_offset
        start_nonce nonces = none) ∧
    (nonce_offset + 8 ≤ tx_template.length →
      cpuMine parseDigest derive (.gasCoin 0) target tx_template nonce_offset
        start_nonce nonces = some none) ∧
    (64 < s.length ∨ (∃ c ∈ s, hexVal c = none) → fromHexPrefix s = none) := by
  refine ⟨fun hoff => ?_, fun hoff => ?_, fun hbad => ?_⟩
  · simp only [cpuMine, base_gas_budget]
    rw [if_neg (by omega)]
  · simp only [cpuMine, base_gas_budget]
    rw [if_pos hoff]
    simp only [cpuSearch_gasCoin_zero]
  · rcases hbad with h64 | ⟨c, hc, hcv⟩
    · simp [fromHexPrefix, h64]
    · by_cases h64 : 64 < s.length
      · simp [fromHexPrefix, h64]
      · simp only [fromHexPrefix]
        rw [if_neg h64]
        rcases hdec : hexDecode (if s.length % 2 == 1 then s ++ ['0'] else s)
          with _ | bs
        · rfl
        · exfalso
          have hmem : c ∈ (if s.length % 2 == 1 then s ++ ['0'] else s) := by
            split_ifs
            · exact List.mem_append_left _ hc
            · exact hc
          have hsome := hexVal_isSome_of_hexDecode _ bs hdec c hmem
          rw [hcv] at hsome
          simp at hsome

/-- C8 amended witness: the three behaviours at concrete inputs. -/
theorem c8_no_entry_validation_witness :
    cpuMine constParse constDerive .package emptyTarget [1, 2] 0 0 [0] =
      none ∧
    cpuMine constParse constDerive (.gasCoin 0) emptyTarget
      (List.replicate 9 0) 1 0 [5] = some none ∧
    fromHexPrefix (List.replicate 65 '0') = none :=
  ⟨(c8_no_entry_validation constParse constDerive .package emptyTarget [1, 2]
      0 0 [0] []).1 (by decide),
   (c8_no_entry_validation constParse constDerive .package emptyTarget
      (List.replicate 9 0) 1 0 [5] []).2.1 (by decide),
   (c8_no_entry_validation constParse constDerive .package emptyTarget [] 0 0
      [] (List.replicate 65 '0')).2.2 (Or.inl (by decide))⟩

end SuiIdMiner
